import Mathlib

/-!
# Shallow embedding of Custom_Memory_Pool_Alloc.cpp

A fixed 2048-byte arena (`data`) hosts up to 64 FIFO byte queues described by a
fixed table (`queues`).  Pointers into the arena are modelled as `Option Nat`
offsets (`none` is the C++ `nullptr`; `some k` is `data + k`).  The arena is a
total function `Nat → Nat`; a byte write overrides one point.  `Size` and
`AllocatedSize` are C++ `unsigned int`; in every execution whose writes stay
inside (or anywhere near) the arena they remain far below `2^32`, so they are
modelled as `Nat` (unsigned wrap-around at `2^32` is not modelled; truncated
subtraction is noted where it occurs).

`std::sort` uses a strict-weak-order comparator and leaves the order of
equivalent elements unspecified; it is modelled as a stable insertion sort.
-/

namespace MemPool

/-- MEMORY_ALLOC_SIZE: capacity of the backing byte array. -/
def MEMORY_ALLOC_SIZE : Nat := 2048

/-- DEFAULT_ALLOC_SIZE: growth unit of a queue allocation. -/
def DEFAULT_ALLOC_SIZE : Nat := 32

/-- MAX_QUEUE_COUNT: number of slots in the queue table. -/
def MAX_QUEUE_COUNT : Nat := 64

/-- One entry of the global `byte_queue queues[64]` table (Model/byte_queue.h).
`memoryBlockPtr = none` models `MemoryBlockPtr == nullptr`. -/
structure ByteQueue where
  memoryBlockPtr : Option Nat
  allocatedSize : Nat
  size : Nat
  bIsActive : Bool
deriving DecidableEq, Repr

/-- The C++ member initializers: `nullptr, 0, 0, false`. -/
instance : Inhabited ByteQueue := ⟨⟨none, 0, 0, false⟩⟩

/-- The whole mutable global state: `queues[64]` plus the arena `data[2048]`. -/
structure PoolState where
  queues : List ByteQueue
  data : Nat → Nat

/-- Write one byte of the arena. -/
def setByte (dat : Nat → Nat) (i v : Nat) : Nat → Nat :=
  fun j => if j = i then v else dat j

/-- Comparison of two pointers into the arena; `nullptr` has the lowest
address.  Used only by the sort comparator below. -/
def ptrLt : Option Nat → Option Nat → Bool
  | none, none => false
  | none, some _ => true
  | some _, none => false
  | some a, some b => a < b

/-- The comparator of `reorganize_byte_queues` (lines 44-52): active entries
first, then by memory location.  `q1.bIs_Active > q2.bIs_Active` on differing
booleans means the active one comes first. -/
def queueLt (q1 q2 : ByteQueue) : Bool :=
  if q1.bIsActive ≠ q2.bIsActive then q1.bIsActive && !q2.bIsActive
  else ptrLt q1.memoryBlockPtr q2.memoryBlockPtr

/-- Insert an element into a list sorted by `queueLt`, before the first element
that is not strictly below it (stable with respect to the original order). -/
def insertSorted (q : ByteQueue) : List ByteQueue → List ByteQueue
  | [] => [q]
  | x :: xs => if queueLt x q then x :: insertSorted q xs else q :: x :: xs

/-- `reorganize_byte_queues` (lines 42-55): sort the copied table with the
comparator `queueLt`.  `std::sort` leaves equivalent elements in an unspecified
order; the model fixes the stable order. -/
def sortQueues : List ByteQueue → List ByteQueue
  | [] => []
  | x :: xs => insertSorted x (sortQueues xs)

/-- `get_first_queue` (lines 61-75): first active entry of the sorted copy,
returned by value. -/
def get_first_queue (qs : List ByteQueue) : Option ByteQueue :=
  (sortQueues qs).find? (fun q => q.bIsActive)

/-- Loop body of `get_next_queue` (lines 82-99): scan the table in TABLE order,
set `foundQueue` at the first entry whose pointer equals the argument pointer,
then return the first active entry after it. -/
def get_next_queue_aux (p : Option Nat) : List ByteQueue → Bool → Option ByteQueue
  | [], _ => none
  | b :: rest, found =>
    if found = false ∧ b.memoryBlockPtr = p then get_next_queue_aux p rest true
    else if found = true ∧ b.bIsActive = true then some b
    else get_next_queue_aux p rest found

/-- `get_next_queue` (lines 82-99).  Note: this walks the table in storage
order, not in address order. -/
def get_next_queue (qs : List ByteQueue) (queue : ByteQueue) : Option ByteQueue :=
  get_next_queue_aux queue.memoryBlockPtr qs false

/-- `get_last_queue` (lines 105-127): last active entry of the sorted copy;
the `std::find` back into `queues` locates an entry with the same field
values, so by value the result is that entry. -/
def get_last_queue (qs : List ByteQueue) : Option ByteQueue :=
  ((sortQueues qs).reverse).find? (fun q => q.bIsActive)

/-- `relocate_bytes` (lines 136-149): no-op when the locations coincide,
otherwise `memmove` of `size` bytes followed, when `clear` is set, by zeroing
the source range.  The zero loop runs after the move, so where the two ranges
overlap it zeroes bytes of the destination as well. -/
def relocate_bytes (dat : Nat → Nat) (old_location location size : Nat) (clear : Bool) : Nat → Nat :=
  if location = old_location then dat
  else
    let moved : Nat → Nat := fun i =>
      if location ≤ i ∧ i < location + size then dat (old_location + (i - location)) else dat i
    if clear then (fun i => if old_location ≤ i ∧ i < old_location + size then 0 else moved i)
    else moved

/-- The scan of `add_byte_queue`: index of the first inactive table entry. -/
def firstInactiveIdx : List ByteQueue → Option Nat
  | [] => none
  | q :: rest => if q.bIsActive = false then some 0 else (firstInactiveIdx rest).map (· + 1)

/-- `add_byte_queue` (lines 157-178): reject a null pointer, otherwise claim
the first inactive slot, returning the updated table and the slot index (the
returned pointer identifies the table entry). -/
def add_byte_queue (qs : List ByteQueue) (ptr : Option Nat) (allocSize : Nat) :
    Option (List ByteQueue × Nat) :=
  match ptr with
  | none => none
  | some a =>
    match firstInactiveIdx qs with
    | none => none
    | some idx =>
      some (qs.set idx ⟨some a, allocSize, 0, true⟩, idx)

/-- Replace the first entry equal (all four fields) to `v` by `w`: the
`std::find` / assign pattern of `try_organize_memory` and `get_last_queue`.
When no entry matches, the original C++ dereferences past the array (the
`it != std::end(temp)` guard compares against the wrong array); the model
leaves the table unchanged in that unreachable case. -/
def replace_first (v w : ByteQueue) : List ByteQueue → List ByteQueue
  | [] => []
  | x :: xs => if x = v then w :: xs else x :: replace_first v w xs

/-- The `while (node_idx < MAX_QUEUE_COUNT)` loop of `try_organize_memory`
(lines 215-241): walk the remaining sorted entries; for each active one whose
pointer is not exactly at the end of the previous placed entry, move its
`AllocatedSize` bytes there (no clearing), update the matching table entry,
and continue with the moved value as `previous`. -/
def organize_walk (st : PoolState) (previous : ByteQueue) (org : Bool) :
    List ByteQueue → PoolState × Bool
  | [] => (st, org)
  | next :: rest =>
    if next.bIsActive = true then
      let start := previous.memoryBlockPtr.getD 0 + previous.allocatedSize
      if next.memoryBlockPtr ≠ some start then
        organize_walk
          { queues := replace_first next
              ⟨some start, next.allocatedSize, next.size, next.bIsActive⟩ st.queues,
            data := relocate_bytes st.data (next.memoryBlockPtr.getD 0) start next.allocatedSize false }
          ⟨some start, next.allocatedSize, next.size, next.bIsActive⟩ true rest
      else organize_walk st next org rest
    else organize_walk st previous org rest

/-- `try_organize_memory` (lines 182-244): sort a copy of the table; fail when
no entry is active; move the first active entry to the arena base when it is
not already there (moving `Size` bytes and zeroing its source range, which may
overlap the destination), then pack the rest with `organize_walk`. -/
def try_organize_memory (st : PoolState) : PoolState × Bool :=
  match sortQueues st.queues with
  | [] => (st, false)
  | t0 :: rest =>
    if t0.bIsActive = false then (st, false)
    else if t0.memoryBlockPtr ≠ some 0 then
      organize_walk
        { queues := replace_first t0
            ⟨some 0, t0.allocatedSize, t0.size, t0.bIsActive⟩ st.queues,
          data := relocate_bytes st.data (t0.memoryBlockPtr.getD 0) 0 t0.size true }
        ⟨some 0, t0.allocatedSize, t0.size, t0.bIsActive⟩ true rest
    else organize_walk st t0 false rest

/-- The gap loop of `first_free_memory` (lines 293-305): walk `temp[1..]`,
stop at the first inactive entry, and return `queue.ptr + queue.alloc` for the
first adjacent pair whose pointer difference (a signed `ptrdiff_t`) admits the
requested size. -/
def gap_scan (requested_size : Nat) : ByteQueue → List ByteQueue → Option Nat
  | _, [] => none
  | queue, t :: rest =>
    if t.bIsActive = false then none
    else if ((t.memoryBlockPtr.getD 0 : Int) -
              ((queue.memoryBlockPtr.getD 0 : Int) + (queue.allocatedSize : Int))
              ≥ (requested_size : Int)) then
      some (queue.memoryBlockPtr.getD 0 + queue.allocatedSize)
    else gap_scan requested_size t rest

/-- `first_free_memory` (lines 251-333), used only when creating a queue.
Returns the chosen offset (or `none` for the C++ `nullptr`) together with the
state, which `try_organize_memory` may have mutated.  The dereferences of
`get_last_queue()` without a null check are modelled with `getD default`;
they are reachable only when an active queue exists, in which case
`get_last_queue` is `some`. -/
def first_free_memory (st : PoolState) (requested_size : Nat) : Option Nat × PoolState :=
  match get_first_queue st.queues with
  | none => (some 0, st)
  | some queue =>
    if some 0 ≠ queue.memoryBlockPtr then
      -- a leading gap exists before the first active queue
      if requested_size ≤ queue.memoryBlockPtr.getD 0 then (some 0, st)
      else
        match try_organize_memory st with
        | (st', false) => (none, st')
        | (st', true) =>
          let lastq := (get_last_queue st'.queues).getD default
          let mem_block_start := lastq.memoryBlockPtr.getD 0 + lastq.allocatedSize
          if mem_block_start + requested_size ≤ MEMORY_ALLOC_SIZE then (some mem_block_start, st')
          else (none, st')
    else
      match get_next_queue st.queues queue with
      | none => (some (queue.memoryBlockPtr.getD 0 + queue.allocatedSize), st)
      | some _ =>
        match gap_scan requested_size queue ((sortQueues st.queues).drop 1) with
        | some g => (some g, st)
        | none =>
          let lastq := (get_last_queue st.queues).getD default
          let ptr_to_first := lastq.memoryBlockPtr.getD 0 + lastq.allocatedSize
          if ptr_to_first + requested_size ≤ MEMORY_ALLOC_SIZE then (some ptr_to_first, st)
          else
            match try_organize_memory st with
            | (st', false) => (none, st')
            | (st', true) =>
              let lastq' := (get_last_queue st'.queues).getD default
              let ptr' := lastq'.memoryBlockPtr.getD 0 + lastq'.allocatedSize
              if ptr' + requested_size ≤ MEMORY_ALLOC_SIZE then (some ptr', st')
              else (none, st')

/-- The two fatal termination kinds: `on_out_of_memory` (SIGABRT) and
`on_illegal_operation` (SIGILL).  Both abort the process, modelled as an
`Except` error that propagates. -/
inductive Fatal where
  | outOfSpace
  | illegalOperation
deriving DecidableEq, Repr

/-- `get_available_memory_start` (lines 341-381), used only when growing an
existing queue.  When no entry follows the queue in table order it returns the
arena base (`data`).  The pointer difference in the gap test is signed. -/
def get_available_memory_start (st : PoolState) (queue : ByteQueue) (size : Nat) :
    Except Fatal (Nat × PoolState) :=
  match get_next_queue st.queues queue with
  | none => .ok (0, st)
  | some node =>
    if ((node.memoryBlockPtr.getD 0 : Int) - (queue.memoryBlockPtr.getD 0 : Int)
        ≥ (size : Int)) then
      .ok (queue.memoryBlockPtr.getD 0, st)
    else
      match get_last_queue st.queues with
      | none => .ok (0, st)
      | some node1 =>
        let memory_start := node1.memoryBlockPtr.getD 0 + node1.allocatedSize
        if memory_start + size > MEMORY_ALLOC_SIZE then
          match try_organize_memory st with
          | (_, false) => .error .outOfSpace
          | (st', true) =>
            let node2 := (get_last_queue st'.queues).getD default
            let memory_start' := node2.memoryBlockPtr.getD 0 + node2.allocatedSize
            if memory_start' + size > MEMORY_ALLOC_SIZE then .error .outOfSpace
            else .ok (memory_start', st')
        else .ok (memory_start, st)

/-- `create_queue` (lines 388-404): find a start offset, claim a slot, and
re-assign the slot fields as the source does.  The returned `Nat` is the slot
index, the stable identity of the queue. -/
def create_queue (st : PoolState) : Except Fatal (PoolState × Nat) :=
  match first_free_memory st DEFAULT_ALLOC_SIZE with
  | (none, _) => .error .outOfSpace
  | (some start, st') =>
    match add_byte_queue st'.queues (some start) DEFAULT_ALLOC_SIZE with
    | none => .error .outOfSpace
    | some (qs, idx) =>
      .ok (⟨qs.set idx ⟨some start, DEFAULT_ALLOC_SIZE, 0, true⟩, st'.data⟩, idx)

/-- `destroy_queue` (lines 411-426): optionally zero the allocated region,
then reset the slot to the inactive defaults. -/
def destroy_queue (st : PoolState) (i : Nat) (clear : Bool) : PoolState :=
  let q := st.queues.getD i default
  let p := q.memoryBlockPtr.getD 0
  { queues := st.queues.set i ⟨none, 0, 0, false⟩,
    data := if clear then (fun j => if p ≤ j ∧ j < p + q.allocatedSize then 0 else st.data j)
            else st.data }

/-- The table entry of queue `i` with its allocation grown by one unit
(`queue->AllocatedSize += DEFAULT_ALLOC_SIZE`, line 442). -/
def grownQueue (st : PoolState) (i : Nat) : ByteQueue :=
  ⟨(st.queues.getD i default).memoryBlockPtr,
    (st.queues.getD i default).allocatedSize + DEFAULT_ALLOC_SIZE,
    (st.queues.getD i default).size, (st.queues.getD i default).bIsActive⟩

/-- The state in which `enqueue_byte` asks for a growth placement: the grown
allocation size is already stored in the table when
`get_available_memory_start` runs. -/
def grownState (st : PoolState) (i : Nat) : PoolState :=
  ⟨st.queues.set i (grownQueue st i), st.data⟩

/-- The relocation step of a growing `enqueue_byte` (lines 443-445): store the
returned start in the slot, then move `lastSize` bytes from the pointer
captured before the call (`lastPosition`), zeroing the old range. -/
def enqueue_relocated (st2 : PoolState) (i : Nat) (addr : Nat)
    (lastPosition : Option Nat) (lastSize : Nat) : PoolState :=
  let q2 := st2.queues.getD i default
  ⟨st2.queues.set i ⟨some addr, q2.allocatedSize, q2.size, q2.bIsActive⟩,
    relocate_bytes st2.data (lastPosition.getD 0) addr lastSize true⟩

/-- The final step of `enqueue_byte` (lines 448-449):
`queue->MemoryBlockPtr[queue->Size] = byte; queue->Size++`. -/
def enqueue_append (st4 : PoolState) (i : Nat) (b : Nat) : PoolState :=
  let q4 := st4.queues.getD i default
  ⟨st4.queues.set i ⟨q4.memoryBlockPtr, q4.allocatedSize, q4.size + 1, q4.bIsActive⟩,
    setByte st4.data (q4.memoryBlockPtr.getD 0 + q4.size) b⟩

/-- `enqueue_byte` (lines 434-450).  On growth the source first bumps
`AllocatedSize` in the table, then calls `get_available_memory_start` (which
may compact and move entries), then overwrites the pointer with the returned
start and moves `lastSize` bytes from the pointer captured before the call,
zeroing the old range, and finally appends the byte. -/
def enqueue_byte (st : PoolState) (i : Nat) (b : Nat) : Except Fatal PoolState :=
  let q := st.queues.getD i default
  if q.size + 1 > q.allocatedSize then
    match get_available_memory_start (grownState st i) (grownQueue st i)
        ((grownQueue st i).allocatedSize) with
    | .error e => .error e
    | .ok (addr, st2) =>
      .ok (enqueue_append (enqueue_relocated st2 i addr q.memoryBlockPtr q.allocatedSize) i b)
  else
    .ok (enqueue_append st i b)

/-- The shift loop of `dequeue_byte` (lines 465-468):
`for(i = 0; i < size; i++) ptr[i] = ptr[i+1]`, executed left to right.  Note
the final iteration reads index `p + size`. -/
def shift_loop (p : Nat) : Nat → (Nat → Nat) → Nat → (Nat → Nat)
  | 0, dat, _ => dat
  | fuel + 1, dat, i => shift_loop p fuel (setByte dat (p + i) (dat (p + i + 1))) (i + 1)

/-- Arena indices read by the shift loop of `dequeue_byte`: iteration `i`
(for `0 ≤ i < size`) reads `MemoryBlockPtr[i + 1]`. -/
def dequeue_shift_read_indices (q : ByteQueue) : List Nat :=
  (List.range q.size).map (fun i => q.memoryBlockPtr.getD 0 + (i + 1))

/-- `dequeue_byte` (lines 458-477): fatal on an empty queue; otherwise take
byte 0, shift left, zero the last occupied byte, and shrink the allocation by
one unit when a whole unit is unused.  `AllocatedSize - DEFAULT_ALLOC_SIZE` is
unsigned; on every state with `size ≤ allocatedSize` the guard `size ≥ 1`
forces `allocatedSize ≥ 32`, so truncated `Nat` subtraction agrees with it. -/
def dequeue_byte (st : PoolState) (i : Nat) : Except Fatal (Nat × PoolState) :=
  let q := st.queues.getD i default
  if q.size = 0 then .error .illegalOperation
  else
    let p := q.memoryBlockPtr.getD 0
    let removed_byte := st.data p
    let d1 := shift_loop p q.size st.data 0
    let size' := q.size - 1
    let d2 := setByte d1 (p + size') 0
    let alloc' := if size' ≤ q.allocatedSize - DEFAULT_ALLOC_SIZE
                  then q.allocatedSize - DEFAULT_ALLOC_SIZE else q.allocatedSize
    .ok (removed_byte,
         ⟨st.queues.set i ⟨q.memoryBlockPtr, alloc', size', q.bIsActive⟩, d2⟩)

/-- One public operation of the allocator; handles are slot indices. -/
inductive Op where
  | create
  | destroy (i : Nat) (clear : Bool)
  | enqueue (i : Nat) (b : Nat)
  | dequeue (i : Nat)
  | compact

/-- Apply one operation; the optional `Nat` is the byte a dequeue returned. -/
def applyOp (st : PoolState) : Op → Except Fatal (PoolState × Option Nat)
  | .create =>
    match create_queue st with
    | .error e => .error e
    | .ok (st', _) => .ok (st', none)
  | .destroy i c => .ok (destroy_queue st i c, none)
  | .enqueue i b =>
    match enqueue_byte st i b with
    | .error e => .error e
    | .ok st' => .ok (st', none)
  | .dequeue i =>
    match dequeue_byte st i with
    | .error e => .error e
    | .ok (v, st') => .ok (st', some v)
  | .compact => .ok ((try_organize_memory st).1, none)

/-- Caller contract: destroy, enqueue and dequeue are invoked only on handles
of live (active) queues, as the test driver does. -/
def validOp (st : PoolState) : Op → Bool
  | .create => true
  | .compact => true
  | .destroy i _ => (st.queues.getD i default).bIsActive
  | .enqueue i _ => (st.queues.getD i default).bIsActive
  | .dequeue i => (st.queues.getD i default).bIsActive

/-- The global state at program start: a zeroed arena and 64 inactive slots. -/
def initialState : PoolState :=
  { queues := List.replicate MAX_QUEUE_COUNT default, data := fun _ => 0 }

/-- Run a list of operations; `none` when a handle is dead or a fatal
condition triggers.  Also collects the dequeued bytes in order. -/
def runOps : PoolState → List Op → Option (PoolState × List Nat)
  | st, [] => some (st, [])
  | st, op :: rest =>
    if validOp st op = true then
      match applyOp st op with
      | .error _ => none
      | .ok (st', out) =>
        match runOps st' rest with
        | none => none
        | some (stF, outs) => some (stF, out.toList ++ outs)
    else none

/-- States reachable from startup by valid, non-fatal operations. -/
inductive Reachable : PoolState → Prop where
  | init : Reachable initialState
  | step {st : PoolState} {op : Op} {st' : PoolState} {out : Option Nat} :
      Reachable st → validOp st op = true → applyOp st op = .ok (st', out) → Reachable st'

/-! ## Specification-side definitions used to state the claims -/

/-- Pad an explicit table to the 64 slots of the global array. -/
def padTable (l : List ByteQueue) : List ByteQueue :=
  l ++ List.replicate (MAX_QUEUE_COUNT - l.length) default

/-- The byte ranges `[address, address + allocated)` of two slots intersect. -/
def rangesOverlapB (a b : ByteQueue) : Bool :=
  decide (a.memoryBlockPtr.getD 0 < b.memoryBlockPtr.getD 0 + b.allocatedSize ∧
          b.memoryBlockPtr.getD 0 < a.memoryBlockPtr.getD 0 + a.allocatedSize)

/-- Invariant I1: no two distinct active slots have overlapping byte ranges. -/
def i1B : List ByteQueue → Bool
  | [] => true
  | q :: rest =>
    (rest.all fun r => !(q.bIsActive && r.bIsActive && rangesOverlapB q r)) && i1B rest

/-- The logical contents of queue `i`: the first `size` bytes at its address. -/
def queueBytes (st : PoolState) (i : Nat) : List Nat :=
  let q := st.queues.getD i default
  (List.range q.size).map (fun j => st.data (q.memoryBlockPtr.getD 0 + j))

/-- Claim C1 run: two queues are created (slots 0 and 1 at offsets 0 and 32),
then 33 bytes are enqueued into queue 1, forcing it to grow.  No operation
is fatal. -/
def opsC1 : List Op :=
  [.create, .create] ++ List.replicate 33 (.enqueue 1 9)

/-- Claim C2 run: as `opsC1` but queue 0 first receives the byte 7, and the
growth of queue 1 relocates it on top of queue 0; a final dequeue on queue 0
is appended, so the dequeued-byte trace of the run is the byte it returns. -/
def opsC2 : List Op :=
  [.create, .create, .enqueue 0 7] ++ List.replicate 33 (.enqueue 1 9) ++ [.dequeue 0]

/-- Claim C3 state: one active queue at offset 32 holding 64 live bytes with
values 1..64 (reachable, e.g. create four queues, grow the second in place
after its neighbours are rearranged, fill it, destroy the first). -/
def stC3 : PoolState :=
  PoolState.mk (padTable [⟨some 32, 64, 64, true⟩])
    (fun i => if 32 ≤ i ∧ i < 96 then i - 31 else 0)

/-- Claim C5 run: create two queues, destroy the first; queue 1 (offset 32)
is then the only active queue and has no successor in table order. -/
def opsC5 : List Op := [.create, .create, .destroy 0 false]

/-- Claim C6 state: slot 0 is active at offset 32 and slot 1 is active at
offset 0, so table order and address order disagree. -/
def stC6 : PoolState :=
  PoolState.mk (padTable [⟨some 32, 32, 0, true⟩, ⟨some 0, 32, 0, true⟩]) (fun _ => 0)

/-- Claim C8 run: create three queues, grow queue 1 (it relocates to offset
96 behind queue 2), then enqueue and dequeue one byte on queue 2 so that its
allocation shrinks to zero.  All operations are non-fatal. -/
def opsC8 : List Op :=
  [.create, .create, .create] ++ List.replicate 33 (.enqueue 1 5) ++
    [.enqueue 2 5, .dequeue 2]

/-- Claim C9 state: an active queue at the arena base and a second active
queue at offset 64 whose 32 bytes all hold the value 7. -/
def stC9 : PoolState :=
  PoolState.mk (padTable [⟨some 0, 32, 0, true⟩, ⟨some 64, 32, 32, true⟩])
    (fun i => if 64 ≤ i ∧ i < 96 then 7 else 0)

/-- Claim C10 run: create one queue and fill it with 32 bytes, so that
`size = allocatedSize = 32`. -/
def opsC10 : List Op := [.create] ++ List.replicate 32 (.enqueue 0 5)

/-- Claim C10 arena: bytes inside the 2048-byte array hold 1; the (in reality
nonexistent) byte just past the array is modelled as holding 77, so reading it
is observable. -/
def beyondArena : Nat → Nat := fun i => if i < MEMORY_ALLOC_SIZE then 1 else 77

/-- Every table entry is active (all `N` slots in use). -/
def AllActive (qs : List ByteQueue) : Prop := ∀ q ∈ qs, q.bIsActive = true

/-- The slot fields other than the address. -/
def slotMeta (q : ByteQueue) : Nat × Nat × Bool := (q.allocatedSize, q.size, q.bIsActive)

/-- Claim C7 per-queue property: the allocation is a multiple of the growth
unit, at least the logical size, and exceeds it by less than one further whole
unit plus one (size is never lower than `allocated - G`). -/
def bracketOK (q : ByteQueue) : Prop :=
  DEFAULT_ALLOC_SIZE ∣ q.allocatedSize ∧
  q.size ≤ q.allocatedSize ∧
  q.allocatedSize ≤ q.size + DEFAULT_ALLOC_SIZE

/-- Claim C9 family: slot 0 active at the arena base with one allocation
unit, slot 1 active at offset `p` with one allocation unit, all other slots
inactive. -/
def twoSlotState (p s0 s1 : Nat) (dat : Nat → Nat) : PoolState :=
  ⟨⟨some 0, DEFAULT_ALLOC_SIZE, s0, true⟩ :: ⟨some p, DEFAULT_ALLOC_SIZE, s1, true⟩ ::
    List.replicate 62 default, dat⟩

/-- The state after a single successful `create_queue` on the initial state;
used as a concrete reachable state. -/
def stOneQueue : PoolState :=
  match runOps initialState [Op.create] with
  | some (st, _) => st
  | none => initialState

/-- The sorted active chain is already packed: walking the sorted table with
`previous` as in the compaction loop, every active entry sits exactly at the
end of the previous active entry. -/
def packedFrom : ByteQueue → List ByteQueue → Bool
  | _, [] => true
  | prev, next :: rest =>
    if next.bIsActive = true then
      if next.memoryBlockPtr = some (prev.memoryBlockPtr.getD 0 + prev.allocatedSize) then
        packedFrom next rest
      else false
    else packedFrom prev rest

/-- The whole pool is packed: the first entry of the sorted table is inactive
(no active queue at all), or it sits at the arena base and the rest of the
chain is packed after it. -/
def packedB (st : PoolState) : Bool :=
  match sortQueues st.queues with
  | [] => true
  | t0 :: rest =>
    if t0.bIsActive = false then true
    else if t0.memoryBlockPtr ≠ some 0 then false
    else packedFrom t0 rest

end MemPool

namespace MemPool

/-! ## Claim theorems -/

/-- Claim C1 (code_bug).  The run `opsC1` is valid and non-fatal, yet in the
final state slots 0 and 1 are both active with ranges `[0, 32)` and `[0, 64)`:
invariant I1 (non-overlap) is violated.  The 33rd enqueue grows queue 1;
`get_next_queue` finds no entry after it in table order, so
`get_available_memory_start` returns the arena base and the queue is relocated
on top of queue 0. -/
theorem c1_invariant_violation_run :
    (runOps initialState opsC1).map (fun p => i1B p.1.queues) = some false ∧
    (runOps initialState opsC1).map
      (fun p => (p.1.queues.getD 0 default, p.1.queues.getD 1 default)) =
      some (⟨some 0, 32, 0, true⟩, ⟨some 0, 64, 33, true⟩) := by
  exact ⟨rfl, rfl⟩

/-- Claim C2 (code_bug).  In the run `opsC2` the byte 7 is the first (and
only) byte enqueued into queue 0, yet the final dequeue on queue 0 returns 9:
the growth relocation of queue 1 overwrote the bytes of queue 0, so the
dequeue sequence of queue 0 is not the enqueue sequence. -/
theorem c2_fifo_violation_run :
    (runOps initialState opsC2).map Prod.snd = some [9] ∧ (9 : Nat) ≠ 7 := by
  exact ⟨rfl, by decide⟩

/-- Claim C3 (code_bug).  Compacting `stC3` moves the only active queue from
offset 32 to the base, but `try_organize_memory` then zeroes the whole source
range `[32, 96)`, which overlaps the destination `[0, 64)`: logical bytes
32..63 of the queue become 0, so the multiset of (handle, contents) pairs is
not preserved (byte 32 was 33, it becomes 0). -/
theorem c3_compaction_content_loss :
    (try_organize_memory stC3).2 = true ∧
    queueBytes (try_organize_memory stC3).1 0 ≠ queueBytes stC3 0 ∧
    ((try_organize_memory stC3).1.queues.getD 0 default).memoryBlockPtr = some 0 ∧
    (try_organize_memory stC3).1.data 32 = 0 ∧ stC3.data 64 = 33 := by
  refine ⟨rfl, ?_, rfl, rfl, rfl⟩
  decide

/-- Claim C5 (code_bug).  After `opsC5` the only active queue sits in slot 1
at offset 32 and no active slot follows it in the table.  A growth placement
request for 64 bytes returns offset 0 (the arena base), not the queue address
32 that the specification requires. -/
theorem c5_growth_no_next_returns_base :
    (runOps initialState opsC5).map (fun p =>
      ((p.1.queues.getD 1 default).memoryBlockPtr,
        match get_available_memory_start p.1 (p.1.queues.getD 1 default) 64 with
        | .ok (a, _) => some a
        | .error _ => none)) = some (some 32, some 0) ∧ (0 : Nat) ≠ 32 := by
  exact ⟨rfl, by decide⟩

/-- Claim C6 counterexample.  In `stC6` the handle in slot 0 has address 32;
the only other active slot has address 0.  `get_next_queue` returns that slot
(table order), whose address 0 is smaller than 32, while the claim requires
the result to be the active slot with the smallest address strictly greater
than 32 — here no such slot exists, so the claimed result is `none`. -/
theorem c6_next_not_address_order :
    (get_next_queue stC6.queues ⟨some 32, 32, 0, true⟩).map (fun q => q.memoryBlockPtr) =
      some (some 0) ∧ (0 : Nat) < 32 := by
  exact ⟨rfl, by decide⟩

/-- Claim C8 counterexample.  After the valid non-fatal run `opsC8`, two
consecutive calls of `try_organize_memory` both return `true`: the first packs
the zero-capacity queue 2 and queue 1 onto the same offset 32, and the second
call moves queue 2 again.  The second of two consecutive calls with no
intervening mutation is not always `false`. -/
theorem c8_double_compact_true :
    (runOps initialState opsC8).map (fun p =>
      ((try_organize_memory p.1).2, (try_organize_memory (try_organize_memory p.1).1).2)) =
      some (true, true) := by
  exact rfl

/-- Claim C9 counterexample.  Compacting `stC9` relocates the queue at offset
64 to offset 32; its vacated source range `[64, 96)` lies outside every new
active range (`[0, 32)` and `[32, 64)`), yet after compaction the bytes 64 and
95 still hold 7 instead of 0: the vacated source range of a non-first
relocated slot is not zeroed. -/
theorem c9_vacated_not_zeroed :
    (try_organize_memory stC9).2 = true ∧
    ((try_organize_memory stC9).1.queues.getD 1 default).memoryBlockPtr = some 32 ∧
    (try_organize_memory stC9).1.data 64 = 7 ∧
    (try_organize_memory stC9).1.data 95 = 7 ∧ (7 : Nat) ≠ 0 := by
  exact ⟨rfl, rfl, rfl, rfl, by decide⟩

/-- Claim C10 (code_bug).  After `opsC10`, queue 0 has
`size = allocatedSize = 32` at offset 0; the shift loop of `dequeue_byte`
reads index `0 + 32`, which is not below `address + allocatedSize = 32`.
Moreover for a slot ending at the arena end (offset 2016, size 32), the loop
reads index 2048 = MEMORY_ALLOC_SIZE: running the shift loop on an arena
whose out-of-bounds byte is modelled as 77 makes that value appear at index
2047, so the read goes past the arena itself. -/
theorem c10_dequeue_reads_past_allocation :
    (runOps initialState opsC10).map (fun p => p.1.queues.getD 0 default) =
      some ⟨some 0, 32, 32, true⟩ ∧
    (32 : Nat) ∈ dequeue_shift_read_indices ⟨some 0, 32, 32, true⟩ ∧
    ¬ ((32 : Nat) < 0 + 32) ∧
    (2048 : Nat) ∈ dequeue_shift_read_indices ⟨some 2016, 32, 32, true⟩ ∧
    ¬ ((2048 : Nat) < 2016 + 32) ∧
    shift_loop 2016 32 beyondArena 0 2047 = 77 ∧ beyondArena 2047 = 1 := by
  refine ⟨rfl, ?_, by decide, ?_, by decide, rfl, rfl⟩
  · decide
  · decide

/-! ## Helper lemmas: state-shape effects of the operations -/

theorem allActive_cons {x : ByteQueue} {xs : List ByteQueue} :
    AllActive (x :: xs) ↔ x.bIsActive = true ∧ AllActive xs := by
  simp [AllActive]

theorem replace_first_allActive (v w : ByteQueue) (hw : w.bIsActive = v.bIsActive) :
    ∀ l : List ByteQueue, AllActive (replace_first v w l) ↔ AllActive l
  | [] => Iff.rfl
  | x :: xs => by
    unfold replace_first
    by_cases hx : x = v
    · rw [if_pos hx, allActive_cons, allActive_cons, hw, hx]
    · rw [if_neg hx, allActive_cons, allActive_cons, replace_first_allActive v w hw xs]

theorem organize_walk_allActive :
    ∀ (l : List ByteQueue) (st : PoolState) (prev : ByteQueue) (org : Bool),
      AllActive ((organize_walk st prev org l).1.queues) ↔ AllActive st.queues
  | [], _, _, _ => Iff.rfl
  | next :: rest, st, prev, org => by
    simp only [organize_walk]
    by_cases ha : next.bIsActive = true
    · simp only [if_pos ha]
      by_cases hp : next.memoryBlockPtr ≠ some (prev.memoryBlockPtr.getD 0 + prev.allocatedSize)
      · simp only [if_pos hp]
        rw [organize_walk_allActive rest]
        exact replace_first_allActive next
          ⟨some (prev.memoryBlockPtr.getD 0 + prev.allocatedSize),
            next.allocatedSize, next.size, next.bIsActive⟩
          rfl st.queues
      · simp only [if_neg hp]
        exact organize_walk_allActive rest st next org
    · simp only [if_neg ha]
      exact organize_walk_allActive rest st prev org

theorem try_organize_allActive (st : PoolState) :
    AllActive ((try_organize_memory st).1.queues) ↔ AllActive st.queues := by
  unfold try_organize_memory
  rcases hs : sortQueues st.queues with _ | ⟨t0, rest⟩
  · exact Iff.rfl
  · by_cases h0 : t0.bIsActive = false
    · simp only [if_pos h0]
    · simp only [if_neg h0]
      by_cases hp : t0.memoryBlockPtr ≠ some 0
      · simp only [if_pos hp]
        rw [organize_walk_allActive rest]
        exact replace_first_allActive t0 ⟨some 0, t0.allocatedSize, t0.size, t0.bIsActive⟩
          rfl st.queues
      · simp only [if_neg hp]
        exact organize_walk_allActive rest st t0 false

theorem first_free_memory_state (st : PoolState) (n : Nat) :
    (first_free_memory st n).2 = st ∨ (first_free_memory st n).2 = (try_organize_memory st).1 := by
  rcases ho : try_organize_memory st with ⟨st', b⟩
  rcases hf : get_first_queue st.queues with _ | q
  · simp only [first_free_memory, hf]
    left; trivial
  · by_cases hb : some 0 ≠ q.memoryBlockPtr
    · by_cases hr : n ≤ q.memoryBlockPtr.getD 0
      · simp only [first_free_memory, hf, if_pos hb, if_pos hr]
        left; trivial
      · cases b
        · simp only [first_free_memory, hf, if_pos hb, if_neg hr, ho]
          right; trivial
        · simp only [first_free_memory, hf, if_pos hb, if_neg hr, ho]
          split
          · right; trivial
          · right; trivial
    · rcases hn : get_next_queue st.queues q with _ | node
      · simp only [first_free_memory, hf, if_neg hb, hn]
        left; trivial
      · rcases hg : gap_scan n q ((sortQueues st.queues).drop 1) with _ | g
        · cases b
          · simp only [first_free_memory, hf, if_neg hb, hn, hg, ho]
            split
            · left; trivial
            · right; trivial
          · simp only [first_free_memory, hf, if_neg hb, hn, hg, ho]
            split
            · left; trivial
            · split
              · right; trivial
              · right; trivial
        · simp only [first_free_memory, hf, if_neg hb, hn, hg]
          left; trivial

theorem get_available_error (st : PoolState) (q : ByteQueue) (n : Nat) (e : Fatal) :
    get_available_memory_start st q n = .error e → e = .outOfSpace := by
  rcases ho : try_organize_memory st with ⟨st', b⟩
  rcases hn : get_next_queue st.queues q with _ | node
  · simp only [get_available_memory_start, hn]
    intro h
    exact Except.noConfusion h
  · by_cases hgap : ((node.memoryBlockPtr.getD 0 : Int) - (q.memoryBlockPtr.getD 0 : Int)
        ≥ (n : Int))
    · simp only [get_available_memory_start, hn, if_pos hgap]
      intro h
      exact Except.noConfusion h
    · rcases hl : get_last_queue st.queues with _ | node1
      · simp only [get_available_memory_start, hn, if_neg hgap, hl]
        intro h
        exact Except.noConfusion h
      · by_cases hm : node1.memoryBlockPtr.getD 0 + node1.allocatedSize + n > MEMORY_ALLOC_SIZE
        · cases b
          · simp only [get_available_memory_start, hn, if_neg hgap, hl, if_pos hm, ho]
            intro h
            injection h with h2
            exact h2.symm
          · simp only [get_available_memory_start, hn, if_neg hgap, hl, if_pos hm, ho]
            split
            · intro h
              injection h with h2
              exact h2.symm
            · intro h
              exact Except.noConfusion h
        · simp only [get_available_memory_start, hn, if_neg hgap, hl, if_neg hm]
          intro h
          exact Except.noConfusion h

theorem firstInactiveIdx_none_iff :
    ∀ l : List ByteQueue, firstInactiveIdx l = none ↔ AllActive l
  | [] => by simp [firstInactiveIdx, AllActive]
  | x :: xs => by
    unfold firstInactiveIdx
    by_cases hx : x.bIsActive = false
    · simp [hx, allActive_cons]
    · have hx' : x.bIsActive = true := by
        cases h : x.bIsActive
        · exact absurd h hx
        · rfl
      simp [hx, hx', allActive_cons, firstInactiveIdx_none_iff xs]

/-- Claim C4 (confirmed).  Fatal termination happens exactly under the stated
conditions and kinds: `dequeue_byte` raises `IllegalOperation` exactly on an
empty queue; `create_queue` raises `OutOfSpace` exactly when the placement
search (which compacts at most once) yields no address or all 64 slots are
active; `destroy_queue` and `try_organize_memory` never terminate; and
`enqueue_byte` raises `OutOfSpace` exactly when growth is needed and the
growth placement (which compacts at most once) fails.  Fatal conditions
propagate as `Except` errors, so none returns normally. -/
theorem c4_fatal_conditions :
    ∀ (st : PoolState) (i b : Nat) (c : Bool) (e : Fatal),
      (dequeue_byte st i = .error e ↔
        e = .illegalOperation ∧ (st.queues.getD i default).size = 0) ∧
      (create_queue st = .error e ↔
        e = .outOfSpace ∧
          ((first_free_memory st DEFAULT_ALLOC_SIZE).1 = none ∨ AllActive st.queues)) ∧
      applyOp st (.destroy i c) = .ok (destroy_queue st i c, none) ∧
      applyOp st .compact = .ok ((try_organize_memory st).1, none) ∧
      (enqueue_byte st i b = .error e ↔
        e = .outOfSpace ∧
          (st.queues.getD i default).size + 1 > (st.queues.getD i default).allocatedSize ∧
          get_available_memory_start (grownState st i) (grownQueue st i)
            ((grownQueue st i).allocatedSize) = .error .outOfSpace) := by
  intro st i b c e
  refine ⟨?_, ?_, rfl, rfl, ?_⟩
  · -- dequeue_byte
    by_cases h : (st.queues.getD i default).size = 0
    · constructor
      · intro he
        simp only [dequeue_byte, if_pos h] at he
        injection he with h2
        subst h2
        exact ⟨rfl, h⟩
      · rintro ⟨rfl, -⟩
        simp only [dequeue_byte, if_pos h]
    · constructor
      · intro he
        simp only [dequeue_byte, if_neg h] at he
        exact Except.noConfusion he
      · rintro ⟨-, hs⟩
        exact absurd hs h
  · -- create_queue
    rcases hf : first_free_memory st DEFAULT_ALLOC_SIZE with ⟨fo, st2⟩
    have hact : AllActive st2.queues ↔ AllActive st.queues := by
      have h := first_free_memory_state st DEFAULT_ALLOC_SIZE
      rw [hf] at h
      rcases h with h | h
      · have h2 : st2 = st := h
        rw [h2]
      · have h2 : st2 = (try_organize_memory st).1 := h
        rw [h2]
        exact try_organize_allActive st
    cases fo with
    | none =>
      constructor
      · intro he
        simp only [create_queue, hf] at he
        injection he with h2
        subst h2
        refine ⟨rfl, Or.inl ?_⟩
        rfl
      · rintro ⟨rfl, -⟩
        simp only [create_queue, hf]
    | some a =>
      rcases hA : add_byte_queue st2.queues (some a) DEFAULT_ALLOC_SIZE with _ | ⟨qs, idx⟩
      · have hFI : firstInactiveIdx st2.queues = none := by
          simp only [add_byte_queue] at hA
          rcases hFI0 : firstInactiveIdx st2.queues with _ | j
          · rfl
          · rw [hFI0] at hA
            exact Option.noConfusion hA
        have hAll : AllActive st.queues :=
          hact.mp ((firstInactiveIdx_none_iff st2.queues).mp hFI)
        constructor
        · intro he
          simp only [create_queue, hf, hA] at he
          injection he with h2
          subst h2
          exact ⟨rfl, Or.inr hAll⟩
        · rintro ⟨rfl, -⟩
          simp only [create_queue, hf, hA]
      · constructor
        · intro he
          simp only [create_queue, hf, hA] at he
          exact Except.noConfusion he
        · rintro ⟨rfl, hor⟩
          rcases hor with h1 | h1
          · exact Option.noConfusion h1
          · have hFI : firstInactiveIdx st2.queues = none :=
              (firstInactiveIdx_none_iff st2.queues).mpr (hact.mpr h1)
            simp only [add_byte_queue, hFI] at hA
            exact Option.noConfusion hA
  · -- enqueue_byte
    by_cases hg : (st.queues.getD i default).size + 1 > (st.queues.getD i default).allocatedSize
    · rcases hgas : get_available_memory_start (grownState st i) (grownQueue st i)
          ((grownQueue st i).allocatedSize) with e' | ⟨addr, st2⟩
      · have he' : e' = .outOfSpace := get_available_error _ _ _ _ hgas
        subst he'
        constructor
        · intro he
          simp only [enqueue_byte, if_pos hg, hgas] at he
          injection he with h2
          subst h2
          exact ⟨rfl, hg, rfl⟩
        · rintro ⟨rfl, -, -⟩
          simp only [enqueue_byte, if_pos hg, hgas]
      · constructor
        · intro he
          simp only [enqueue_byte, if_pos hg, hgas] at he
          exact Except.noConfusion he
        · rintro ⟨-, -, hbad⟩
          exact Except.noConfusion hbad
    · constructor
      · intro he
        simp only [enqueue_byte, if_neg hg] at he
        exact Except.noConfusion he
      · rintro ⟨-, hbad, -⟩
        exact absurd hbad hg

/-- Witness for C4: on the initial state, dequeue on the (empty, size 0) slot
0 is exactly an `IllegalOperation` error, by the characterization. -/
theorem c4_fatal_conditions_witness :
    dequeue_byte initialState 0 = .error .illegalOperation :=
  ((c4_fatal_conditions initialState 0 0 false .illegalOperation).1).mpr ⟨rfl, rfl⟩

/-! ## Helper lemmas: pointwise slot bookkeeping -/

theorem list_getD_oob {α : Type} [Inhabited α] :
    ∀ (l : List α) (i : Nat), l.length ≤ i → l.getD i default = default
  | [], _, _ => rfl
  | x :: xs, 0, h => absurd h (by simp)
  | x :: xs, i + 1, h => list_getD_oob xs i (Nat.le_of_succ_le_succ h)

theorem list_getD_set_eq {α : Type} [Inhabited α] :
    ∀ (l : List α) (i : Nat) (a : α), i < l.length → (l.set i a).getD i default = a
  | [], _, _, h => absurd h (by simp)
  | x :: xs, 0, _, _ => rfl
  | x :: xs, i + 1, a, h => list_getD_set_eq xs i a (Nat.lt_of_succ_lt_succ h)

theorem list_getD_set_ne {α : Type} [Inhabited α] :
    ∀ (l : List α) (i j : Nat) (a : α), i ≠ j → (l.set i a).getD j default = l.getD j default
  | [], _, _, _, _ => rfl
  | x :: xs, 0, 0, _, h => absurd rfl h
  | x :: xs, 0, j + 1, _, _ => rfl
  | x :: xs, i + 1, 0, _, _ => rfl
  | x :: xs, i + 1, j + 1, a, h =>
    list_getD_set_ne xs i j a (fun hh => h (by rw [hh]))

theorem getD_set_cases {α : Type} [Inhabited α] :
    ∀ (l : List α) (i j : Nat) (a : α),
      (l.set i a).getD j default = a ∨ (l.set i a).getD j default = l.getD j default
  | [], _, _, _ => Or.inr rfl
  | x :: xs, 0, 0, a => Or.inl rfl
  | x :: xs, 0, j + 1, a => Or.inr rfl
  | x :: xs, i + 1, 0, a => Or.inr rfl
  | x :: xs, i + 1, j + 1, a => getD_set_cases xs i j a

theorem slotMeta_fields {q r : ByteQueue} (h : slotMeta q = slotMeta r) :
    q.allocatedSize = r.allocatedSize ∧ q.size = r.size ∧ q.bIsActive = r.bIsActive :=
  ⟨congrArg Prod.fst h, congrArg (fun p => p.2.1) h, congrArg (fun p => p.2.2) h⟩

theorem bracketOK_of_meta {q r : ByteQueue} (h : slotMeta q = slotMeta r)
    (hr : bracketOK r) : bracketOK q := by
  obtain ⟨h1, h2, h3⟩ := slotMeta_fields h
  unfold bracketOK at hr ⊢
  rw [h1, h2]
  exact hr

theorem replace_first_meta (v w : ByteQueue) (hw : slotMeta w = slotMeta v) :
    ∀ (l : List ByteQueue) (i : Nat),
      slotMeta ((replace_first v w l).getD i default) = slotMeta (l.getD i default)
  | [], _ => rfl
  | x :: xs, i => by
    unfold replace_first
    by_cases hx : x = v
    · rw [if_pos hx]
      cases i with
      | zero => rw [List.getD_cons_zero, List.getD_cons_zero, hw, hx]
      | succ n => rw [List.getD_cons_succ, List.getD_cons_succ]
    · rw [if_neg hx]
      cases i with
      | zero => rw [List.getD_cons_zero, List.getD_cons_zero]
      | succ n =>
        rw [List.getD_cons_succ, List.getD_cons_succ]
        exact replace_first_meta v w hw xs n

theorem organize_walk_meta :
    ∀ (l : List ByteQueue) (st : PoolState) (prev : ByteQueue) (org : Bool) (i : Nat),
      slotMeta (((organize_walk st prev org l).1).queues.getD i default) =
        slotMeta (st.queues.getD i default)
  | [], _, _, _, _ => rfl
  | next :: rest, st, prev, org, i => by
    simp only [organize_walk]
    by_cases ha : next.bIsActive = true
    · simp only [if_pos ha]
      by_cases hp : next.memoryBlockPtr ≠ some (prev.memoryBlockPtr.getD 0 + prev.allocatedSize)
      · simp only [if_pos hp]
        rw [organize_walk_meta rest]
        exact replace_first_meta next
          ⟨some (prev.memoryBlockPtr.getD 0 + prev.allocatedSize),
            next.allocatedSize, next.size, next.bIsActive⟩
          rfl st.queues i
      · simp only [if_neg hp]
        exact organize_walk_meta rest st next org i
    · simp only [if_neg ha]
      exact organize_walk_meta rest st prev org i

theorem try_organize_meta (st : PoolState) (i : Nat) :
    slotMeta (((try_organize_memory st).1).queues.getD i default) =
      slotMeta (st.queues.getD i default) := by
  unfold try_organize_memory
  rcases hs : sortQueues st.queues with _ | ⟨t0, rest⟩
  · rfl
  · by_cases h0 : t0.bIsActive = false
    · simp only [if_pos h0]
    · simp only [if_neg h0]
      by_cases hp : t0.memoryBlockPtr ≠ some 0
      · simp only [if_pos hp]
        rw [organize_walk_meta rest]
        exact replace_first_meta t0 ⟨some 0, t0.allocatedSize, t0.size, t0.bIsActive⟩
          rfl st.queues i
      · simp only [if_neg hp]
        exact organize_walk_meta rest st t0 false i

theorem first_free_memory_meta (st : PoolState) (n : Nat) (i : Nat) :
    slotMeta (((first_free_memory st n).2).queues.getD i default) =
      slotMeta (st.queues.getD i default) := by
  rcases first_free_memory_state st n with h | h
  · rw [h]
  · rw [h]
    exact try_organize_meta st i

theorem get_available_state (st : PoolState) (q : ByteQueue) (n a : Nat) (st2 : PoolState) :
    get_available_memory_start st q n = .ok (a, st2) →
      st2 = st ∨ st2 = (try_organize_memory st).1 := by
  rcases ho : try_organize_memory st with ⟨st', b⟩
  rcases hn : get_next_queue st.queues q with _ | node
  · simp only [get_available_memory_start, hn]
    intro h
    injection h with h2
    rw [Prod.mk.injEq] at h2
    exact Or.inl h2.2.symm
  · by_cases hgap : ((node.memoryBlockPtr.getD 0 : Int) - (q.memoryBlockPtr.getD 0 : Int)
        ≥ (n : Int))
    · simp only [get_available_memory_start, hn, if_pos hgap]
      intro h
      injection h with h2
      rw [Prod.mk.injEq] at h2
      exact Or.inl h2.2.symm
    · rcases hl : get_last_queue st.queues with _ | node1
      · simp only [get_available_memory_start, hn, if_neg hgap, hl]
        intro h
        injection h with h2
        rw [Prod.mk.injEq] at h2
        exact Or.inl h2.2.symm
      · by_cases hm : node1.memoryBlockPtr.getD 0 + node1.allocatedSize + n > MEMORY_ALLOC_SIZE
        · cases b
          · simp only [get_available_memory_start, hn, if_neg hgap, hl, if_pos hm, ho]
            intro h
            exact Except.noConfusion h
          · simp only [get_available_memory_start, hn, if_neg hgap, hl, if_pos hm, ho]
            split
            · intro h
              exact Except.noConfusion h
            · intro h
              injection h with h2
              rw [Prod.mk.injEq] at h2
              exact Or.inr h2.2.symm
        · simp only [get_available_memory_start, hn, if_neg hgap, hl, if_neg hm]
          intro h
          injection h with h2
          rw [Prod.mk.injEq] at h2
          exact Or.inl h2.2.symm

theorem enqueue_relocated_meta (st2 : PoolState) (i : Nat) (addr : Nat)
    (lp : Option Nat) (ls : Nat) (j : Nat) :
    slotMeta ((enqueue_relocated st2 i addr lp ls).queues.getD j default) =
      slotMeta (st2.queues.getD j default) := by
  simp only [enqueue_relocated]
  by_cases hij : j = i
  · subst hij
    rcases getD_set_cases st2.queues j j
        (⟨some addr, (st2.queues.getD j default).allocatedSize,
          (st2.queues.getD j default).size, (st2.queues.getD j default).bIsActive⟩ :
          ByteQueue) with h | h
    · rw [h]
      rfl
    · rw [h]
  · rw [list_getD_set_ne st2.queues i j _ (fun hh => hij hh.symm)]

theorem enqueue_append_cases (st4 : PoolState) (i b : Nat) (j : Nat) :
    slotMeta ((enqueue_append st4 i b).queues.getD j default) =
      slotMeta (st4.queues.getD j default) ∨
    slotMeta ((enqueue_append st4 i b).queues.getD j default) =
      ((st4.queues.getD i default).allocatedSize, (st4.queues.getD i default).size + 1,
        (st4.queues.getD i default).bIsActive) := by
  simp only [enqueue_append]
  rcases getD_set_cases st4.queues i j
      (⟨(st4.queues.getD i default).memoryBlockPtr, (st4.queues.getD i default).allocatedSize,
        (st4.queues.getD i default).size + 1, (st4.queues.getD i default).bIsActive⟩ :
        ByteQueue) with h | h
  · rw [h]
    right
    rfl
  · rw [h]
    left
    rfl

theorem slotMeta_eq_mk {q : ByteQueue} {a s : Nat} {t : Bool} (h : slotMeta q = (a, s, t)) :
    q.allocatedSize = a ∧ q.size = s ∧ q.bIsActive = t := by
  have h2 : (q.allocatedSize, q.size, q.bIsActive) = (a, s, t) := h
  rw [Prod.mk.injEq, Prod.mk.injEq] at h2
  exact ⟨h2.1, h2.2.1, h2.2.2⟩

theorem getD_replicate {α : Type} [Inhabited α] :
    ∀ (n i : Nat), (List.replicate n (default : α)).getD i default = default
  | 0, 0 => rfl
  | 0, _ + 1 => rfl
  | n + 1, 0 => rfl
  | n + 1, i + 1 => getD_replicate n i

theorem create_ok_cases (st stE : PoolState) (idx : Nat)
    (hok : create_queue st = .ok (stE, idx)) (j : Nat) :
    slotMeta (stE.queues.getD j default) = slotMeta (st.queues.getD j default) ∨
    slotMeta (stE.queues.getD j default) = (DEFAULT_ALLOC_SIZE, 0, true) := by
  rcases hf : first_free_memory st DEFAULT_ALLOC_SIZE with ⟨fo, stf⟩
  have hmetaF : ∀ k, slotMeta (stf.queues.getD k default) =
      slotMeta (st.queues.getD k default) := by
    intro k
    have h := first_free_memory_meta st DEFAULT_ALLOC_SIZE k
    rw [hf] at h
    exact h
  cases fo with
  | none =>
    simp only [create_queue, hf] at hok
    exact Except.noConfusion hok
  | some a =>
    rcases hA : add_byte_queue stf.queues (some a) DEFAULT_ALLOC_SIZE with _ | ⟨qs2, idx2⟩
    · simp only [create_queue, hf, hA] at hok
      exact Except.noConfusion hok
    · have hqs2 : qs2 = stf.queues.set idx2 ⟨some a, DEFAULT_ALLOC_SIZE, 0, true⟩ := by
        simp only [add_byte_queue] at hA
        rcases hFI : firstInactiveIdx stf.queues with _ | k
        · rw [hFI] at hA
          exact Option.noConfusion hA
        · rw [hFI] at hA
          injection hA with h2
          rw [Prod.mk.injEq] at h2
          rw [← h2.1, ← h2.2]
      simp only [create_queue, hf, hA] at hok
      injection hok with h2
      rw [Prod.mk.injEq] at h2
      obtain ⟨h3, -⟩ := h2
      have hq : stE.queues = qs2.set idx2 ⟨some a, DEFAULT_ALLOC_SIZE, 0, true⟩ := by
        rw [← h3]
      rw [hq]
      rcases getD_set_cases qs2 idx2 j
          (⟨some a, DEFAULT_ALLOC_SIZE, 0, true⟩ : ByteQueue) with h | h
      · rw [h]
        right
        rfl
      · rw [h, hqs2]
        rcases getD_set_cases stf.queues idx2 j
            (⟨some a, DEFAULT_ALLOC_SIZE, 0, true⟩ : ByteQueue) with h4 | h4
        · rw [h4]
          right
          rfl
        · rw [h4]
          left
          exact hmetaF j

theorem destroy_cases (st : PoolState) (i0 : Nat) (c0 : Bool) (j : Nat) :
    slotMeta ((destroy_queue st i0 c0).queues.getD j default) =
      slotMeta (st.queues.getD j default) ∨
    slotMeta ((destroy_queue st i0 c0).queues.getD j default) = (0, 0, false) := by
  simp only [destroy_queue]
  rcases getD_set_cases st.queues i0 j (⟨none, 0, 0, false⟩ : ByteQueue) with h | h
  · rw [h]
    right
    rfl
  · rw [h]
    left
    rfl

theorem enqueue_ok_cases (st : PoolState) (i0 b0 : Nat) (stE : PoolState)
    (hok : enqueue_byte st i0 b0 = .ok stE) (hlen : i0 < st.queues.length) (j : Nat) :
    slotMeta (stE.queues.getD j default) = slotMeta (st.queues.getD j default) ∨
    ((st.queues.getD i0 default).size + 1 > (st.queues.getD i0 default).allocatedSize ∧
      (slotMeta (stE.queues.getD j default) =
          ((st.queues.getD i0 default).allocatedSize + DEFAULT_ALLOC_SIZE,
            (st.queues.getD i0 default).size + 1, (st.queues.getD i0 default).bIsActive) ∨
        slotMeta (stE.queues.getD j default) =
          ((st.queues.getD i0 default).allocatedSize + DEFAULT_ALLOC_SIZE,
            (st.queues.getD i0 default).size, (st.queues.getD i0 default).bIsActive))) ∨
    (¬((st.queues.getD i0 default).size + 1 > (st.queues.getD i0 default).allocatedSize) ∧
      slotMeta (stE.queues.getD j default) =
        ((st.queues.getD i0 default).allocatedSize, (st.queues.getD i0 default).size + 1,
          (st.queues.getD i0 default).bIsActive)) := by
  have hgrown : slotMeta ((grownState st i0).queues.getD i0 default) =
      ((st.queues.getD i0 default).allocatedSize + DEFAULT_ALLOC_SIZE,
        (st.queues.getD i0 default).size, (st.queues.getD i0 default).bIsActive) := by
    have h : (grownState st i0).queues.getD i0 default = grownQueue st i0 :=
      list_getD_set_eq st.queues i0 (grownQueue st i0) hlen
    rw [h]
    rfl
  have hgrownj : ∀ k, slotMeta ((grownState st i0).queues.getD k default) =
      slotMeta (st.queues.getD k default) ∨
      slotMeta ((grownState st i0).queues.getD k default) =
      ((st.queues.getD i0 default).allocatedSize + DEFAULT_ALLOC_SIZE,
        (st.queues.getD i0 default).size, (st.queues.getD i0 default).bIsActive) := by
    intro k
    rcases getD_set_cases st.queues i0 k (grownQueue st i0) with h | h
    · right
      rw [show (grownState st i0).queues = st.queues.set i0 (grownQueue st i0) from rfl, h]
      rfl
    · left
      rw [show (grownState st i0).queues = st.queues.set i0 (grownQueue st i0) from rfl, h]
  by_cases hg : (st.queues.getD i0 default).size + 1 > (st.queues.getD i0 default).allocatedSize
  · simp only [enqueue_byte, if_pos hg] at hok
    rcases hgas : get_available_memory_start (grownState st i0) (grownQueue st i0)
        ((grownQueue st i0).allocatedSize) with e | p
    · rw [hgas] at hok
      exact Except.noConfusion hok
    · obtain ⟨addr, st2⟩ := p
      rw [hgas] at hok
      injection hok with h2
      subst h2
      have hst2 : ∀ k, slotMeta (st2.queues.getD k default) =
          slotMeta ((grownState st i0).queues.getD k default) := by
        rcases get_available_state _ _ _ _ _ hgas with h | h
        · rw [h]
          intro k
          rfl
        · rw [h]
          exact fun k => try_organize_meta (grownState st i0) k
      rcases enqueue_append_cases (enqueue_relocated st2 i0 addr
          (st.queues.getD i0 default).memoryBlockPtr
          (st.queues.getD i0 default).allocatedSize) i0 b0 j with h | h
      · rw [h, enqueue_relocated_meta]
        rcases hgrownj j with h5 | h5
        · rw [hst2 j, h5]
          left
          rfl
        · rw [hst2 j, h5]
          right
          left
          exact ⟨hg, Or.inr rfl⟩
      · have h6 : slotMeta ((enqueue_relocated st2 i0 addr
            (st.queues.getD i0 default).memoryBlockPtr
            (st.queues.getD i0 default).allocatedSize).queues.getD i0 default) =
            ((st.queues.getD i0 default).allocatedSize + DEFAULT_ALLOC_SIZE,
              (st.queues.getD i0 default).size, (st.queues.getD i0 default).bIsActive) := by
          rw [enqueue_relocated_meta, hst2 i0, hgrown]
        obtain ⟨h7, h8, h9⟩ := slotMeta_eq_mk h6
        rw [h7, h8, h9] at h
        right
        left
        exact ⟨hg, Or.inl h⟩
  · simp only [enqueue_byte, if_neg hg] at hok
    injection hok with h2
    subst h2
    rcases enqueue_append_cases st i0 b0 j with h | h
    · rw [h]
      left
      rfl
    · rw [h]
      right
      right
      exact ⟨hg, rfl⟩

theorem dequeue_ok_cases (st : PoolState) (i0 : Nat) (v : Nat) (stE : PoolState)
    (hok : dequeue_byte st i0 = .ok (v, stE)) (j : Nat) :
    slotMeta (stE.queues.getD j default) = slotMeta (st.queues.getD j default) ∨
    ((st.queues.getD i0 default).size ≠ 0 ∧
      slotMeta (stE.queues.getD j default) =
        ((if (st.queues.getD i0 default).size - 1 ≤
              (st.queues.getD i0 default).allocatedSize - DEFAULT_ALLOC_SIZE
          then (st.queues.getD i0 default).allocatedSize - DEFAULT_ALLOC_SIZE
          else (st.queues.getD i0 default).allocatedSize),
          (st.queues.getD i0 default).size - 1, (st.queues.getD i0 default).bIsActive)) := by
  by_cases h0 : (st.queues.getD i0 default).size = 0
  · simp only [dequeue_byte, if_pos h0] at hok
    exact Except.noConfusion hok
  · simp only [dequeue_byte, if_neg h0] at hok
    injection hok with h2
    rw [Prod.mk.injEq] at h2
    obtain ⟨-, h3⟩ := h2
    have hq : stE.queues = st.queues.set i0
        (⟨(st.queues.getD i0 default).memoryBlockPtr,
          (if (st.queues.getD i0 default).size - 1 ≤
              (st.queues.getD i0 default).allocatedSize - DEFAULT_ALLOC_SIZE
           then (st.queues.getD i0 default).allocatedSize - DEFAULT_ALLOC_SIZE
           else (st.queues.getD i0 default).allocatedSize),
          (st.queues.getD i0 default).size - 1,
          (st.queues.getD i0 default).bIsActive⟩ : ByteQueue) := by
      rw [← h3]
    rw [hq]
    rcases getD_set_cases st.queues i0 j
        (⟨(st.queues.getD i0 default).memoryBlockPtr,
          (if (st.queues.getD i0 default).size - 1 ≤
              (st.queues.getD i0 default).allocatedSize - DEFAULT_ALLOC_SIZE
           then (st.queues.getD i0 default).allocatedSize - DEFAULT_ALLOC_SIZE
           else (st.queues.getD i0 default).allocatedSize),
          (st.queues.getD i0 default).size - 1,
          (st.queues.getD i0 default).bIsActive⟩ : ByteQueue) with h | h
    · rw [h]
      right
      exact ⟨h0, rfl⟩
    · rw [h]
      left
      rfl

/-- Claim C7 (confirmed).  In every reachable state, every active queue obeys
the growth and shrink bracketing: `allocatedSize` is a multiple of the growth
unit, is at least `size`, and is at most `size + DEFAULT_ALLOC_SIZE`. -/
theorem c7_capacity_bracketing :
    ∀ st : PoolState, Reachable st →
      ∀ i : Nat, (st.queues.getD i default).bIsActive = true →
        bracketOK (st.queues.getD i default) := by
  intro st hreach
  induction hreach with
  | init =>
    intro i hi
    have h2 : initialState.queues.getD i default = default :=
      getD_replicate MAX_QUEUE_COUNT i
    rw [h2] at hi
    exact Bool.noConfusion hi
  | @step st0 op st1 out hr hv ha ih =>
    cases op with
    | create =>
      intro i hi
      rcases hc : create_queue st0 with e | p
      · simp only [applyOp, hc] at ha
        exact Except.noConfusion ha
      · obtain ⟨st2, idx⟩ := p
        simp only [applyOp, hc] at ha
        injection ha with h2
        rw [Prod.mk.injEq] at h2
        obtain ⟨h3, -⟩ := h2
        subst h3
        rcases create_ok_cases st0 st2 idx hc i with h | h
        · obtain ⟨-, -, hact⟩ := slotMeta_eq_mk h
          rw [hact] at hi
          exact bracketOK_of_meta h (ih i hi)
        · obtain ⟨ha1, hs1, -⟩ := slotMeta_eq_mk h
          unfold bracketOK
          rw [ha1, hs1]
          refine ⟨dvd_refl _, Nat.zero_le _, by simp⟩
    | destroy i0 c0 =>
      intro i hi
      simp only [applyOp] at ha
      injection ha with h2
      rw [Prod.mk.injEq] at h2
      obtain ⟨h3, -⟩ := h2
      subst h3
      rcases destroy_cases st0 i0 c0 i with h | h
      · obtain ⟨-, -, hact⟩ := slotMeta_eq_mk h
        rw [hact] at hi
        exact bracketOK_of_meta h (ih i hi)
      · obtain ⟨-, -, hact⟩ := slotMeta_eq_mk h
        rw [hact] at hi
        exact Bool.noConfusion hi
    | enqueue i0 b0 =>
      intro i hi
      simp only [validOp] at hv
      have hlen : i0 < st0.queues.length := by
        by_contra hnot
        push_neg at hnot
        rw [list_getD_oob _ _ hnot] at hv
        exact Bool.noConfusion hv
      rcases he : enqueue_byte st0 i0 b0 with e | stE
      · simp only [applyOp, he] at ha
        exact Except.noConfusion ha
      · simp only [applyOp, he] at ha
        injection ha with h2
        rw [Prod.mk.injEq] at h2
        obtain ⟨h3, -⟩ := h2
        subst h3
        obtain ⟨hd, hle1, hle2⟩ := ih i0 hv
        rcases enqueue_ok_cases st0 i0 b0 stE he hlen i with h | ⟨hg, h | h⟩ | ⟨hg, h⟩
        · obtain ⟨-, -, hact⟩ := slotMeta_eq_mk
            (h.trans (rfl :
              slotMeta (st0.queues.getD i default) =
              ((st0.queues.getD i default).allocatedSize, (st0.queues.getD i default).size,
                (st0.queues.getD i default).bIsActive)))
          rw [hact] at hi
          exact bracketOK_of_meta h (ih i hi)
        all_goals
          obtain ⟨ha1, hs1, -⟩ := slotMeta_eq_mk h
        all_goals
          unfold bracketOK
          rw [ha1, hs1]
          simp only [DEFAULT_ALLOC_SIZE] at hd hg hle1 hle2 ⊢
          refine ⟨?_, ?_, ?_⟩ <;> omega
    | dequeue i0 =>
      intro i hi
      simp only [validOp] at hv
      rcases he : dequeue_byte st0 i0 with e | p
      · simp only [applyOp, he] at ha
        exact Except.noConfusion ha
      · obtain ⟨v, stE⟩ := p
        simp only [applyOp, he] at ha
        injection ha with h2
        rw [Prod.mk.injEq] at h2
        obtain ⟨h3, -⟩ := h2
        subst h3
        obtain ⟨hd, hle1, hle2⟩ := ih i0 hv
        rcases dequeue_ok_cases st0 i0 v stE he i with h | ⟨h0, h⟩
        · obtain ⟨-, -, hact⟩ := slotMeta_eq_mk
            (h.trans (rfl :
              slotMeta (st0.queues.getD i default) =
              ((st0.queues.getD i default).allocatedSize, (st0.queues.getD i default).size,
                (st0.queues.getD i default).bIsActive)))
          rw [hact] at hi
          exact bracketOK_of_meta h (ih i hi)
        · obtain ⟨ha1, hs1, -⟩ := slotMeta_eq_mk h
          have hsz : 1 ≤ (st0.queues.getD i0 default).size := Nat.one_le_iff_ne_zero.mpr h0
          have halloc : DEFAULT_ALLOC_SIZE ≤ (st0.queues.getD i0 default).allocatedSize :=
            Nat.le_of_dvd (Nat.lt_of_lt_of_le Nat.zero_lt_one (le_trans hsz hle1)) hd
          unfold bracketOK
          rw [ha1, hs1]
          by_cases hshr : (st0.queues.getD i0 default).size - 1 ≤
              (st0.queues.getD i0 default).allocatedSize - DEFAULT_ALLOC_SIZE
          · rw [if_pos hshr]
            refine ⟨Nat.dvd_sub' hd (dvd_refl _), hshr, ?_⟩
            simp only [DEFAULT_ALLOC_SIZE] at halloc hle2 ⊢
            omega
          · rw [if_neg hshr]
            refine ⟨hd, ?_, ?_⟩
            · omega
            · simp only [DEFAULT_ALLOC_SIZE] at hshr halloc ⊢
              omega
    | compact =>
      intro i hi
      simp only [applyOp] at ha
      injection ha with h2
      rw [Prod.mk.injEq] at h2
      obtain ⟨h3, -⟩ := h2
      subst h3
      have h := try_organize_meta st0 i
      obtain ⟨-, -, hact⟩ := slotMeta_eq_mk
        (h.trans (rfl :
          slotMeta (st0.queues.getD i default) =
          ((st0.queues.getD i default).allocatedSize, (st0.queues.getD i default).size,
            (st0.queues.getD i default).bIsActive)))
      rw [hact] at hi
      exact bracketOK_of_meta h (ih i hi)

/-- Witness for C7: the state after one `create_queue` is reachable; its slot
0 is active, and the theorem yields its bracketing property. -/
theorem c7_capacity_bracketing_witness :
    bracketOK (stOneQueue.queues.getD 0 default) :=
  c7_capacity_bracketing stOneQueue
    (@Reachable.step initialState Op.create stOneQueue none Reachable.init rfl rfl) 0 rfl

/-! ## Sort order lemmas for the query operations -/

theorem ptrLt_asymm : ∀ {p q : Option Nat}, ptrLt p q = true → ptrLt q p = false
  | none, none, h => Bool.noConfusion h
  | none, some _, _ => rfl
  | some _, none, h => Bool.noConfusion h
  | some a, some b, h => by
    simp only [ptrLt, decide_eq_true_eq] at h
    simp only [ptrLt, decide_eq_false_iff_not]
    omega

theorem ptrLt_negtrans :
    ∀ {p q r : Option Nat}, ptrLt q p = false → ptrLt r q = false → ptrLt r p = false
  | none, none, none, _, _ => rfl
  | none, none, some _, _, _ => rfl
  | none, some _, none, _, _ => rfl
  | none, some _, some _, _, _ => rfl
  | some _, none, none, h1, _ => Bool.noConfusion h1
  | some _, none, some _, h1, _ => Bool.noConfusion h1
  | some _, some _, none, _, h2 => Bool.noConfusion h2
  | some a, some b, some c, h1, h2 => by
    simp only [ptrLt, decide_eq_false_iff_not] at h1 h2 ⊢
    omega

theorem queueLt_irrefl (a : ByteQueue) : queueLt a a = false := by
  unfold queueLt
  rw [if_neg (fun h => h rfl)]
  cases a.memoryBlockPtr
  · rfl
  · simp [ptrLt]

theorem queueLt_asymm {a b : ByteQueue} (h : queueLt a b = true) : queueLt b a = false := by
  unfold queueLt at h ⊢
  by_cases hab : a.bIsActive = b.bIsActive
  · rw [if_neg (fun hne => hne hab)] at h
    rw [if_neg (fun hne => hne hab.symm)]
    exact ptrLt_asymm h
  · rw [if_pos hab] at h
    rw [if_pos (fun heq => hab heq.symm)]
    cases ha : a.bIsActive <;> cases hb : b.bIsActive <;> simp_all

theorem queueLt_negtrans {a b c : ByteQueue} (h1 : queueLt b a = false)
    (h2 : queueLt c b = false) : queueLt c a = false := by
  unfold queueLt at h1 h2 ⊢
  cases ha : a.bIsActive <;> cases hb : b.bIsActive <;> cases hc : c.bIsActive <;>
    simp_all <;> exact ptrLt_negtrans h1 h2

theorem insertSorted_perm (q : ByteQueue) :
    ∀ l : List ByteQueue, List.Perm (insertSorted q l) (q :: l)
  | [] => List.Perm.refl _
  | x :: xs => by
    unfold insertSorted
    by_cases h : queueLt x q = true
    · rw [if_pos h]
      exact ((insertSorted_perm q xs).cons x).trans (List.Perm.swap q x xs)
    · rw [if_neg h]

theorem sortQueues_perm : ∀ l : List ByteQueue, List.Perm (sortQueues l) l
  | [] => List.Perm.refl _
  | x :: xs => (insertSorted_perm x (sortQueues xs)).trans ((sortQueues_perm xs).cons x)

theorem insertSorted_pairwise (q : ByteQueue) :
    ∀ l : List ByteQueue, l.Pairwise (fun a b => queueLt b a = false) →
      (insertSorted q l).Pairwise (fun a b => queueLt b a = false)
  | [], _ =>
    List.Pairwise.cons (fun y hy => absurd hy (List.not_mem_nil y)) List.Pairwise.nil
  | x :: xs, hp => by
    obtain ⟨hx, hxs⟩ := List.pairwise_cons.mp hp
    unfold insertSorted
    by_cases h : queueLt x q = true
    · rw [if_pos h]
      refine List.pairwise_cons.mpr ⟨?_, insertSorted_pairwise q xs hxs⟩
      intro y hy
      rcases List.mem_cons.mp ((insertSorted_perm q xs).mem_iff.mp hy) with rfl | hy'
      · exact queueLt_asymm h
      · exact hx y hy'
    · rw [if_neg h]
      have hxq : queueLt x q = false := by
        cases hv : queueLt x q
        · rfl
        · exact absurd hv h
      refine List.pairwise_cons.mpr ⟨?_, hp⟩
      intro y hy
      rcases List.mem_cons.mp hy with rfl | hy'
      · exact hxq
      · exact queueLt_negtrans hxq (hx y hy')

theorem sortQueues_pairwise :
    ∀ l : List ByteQueue, (sortQueues l).Pairwise (fun a b => queueLt b a = false)
  | [] => List.Pairwise.nil
  | x :: xs => insertSorted_pairwise x (sortQueues xs) (sortQueues_pairwise xs)

theorem find?_cons_eval (p : ByteQueue → Bool) (x : ByteQueue) (xs : List ByteQueue) :
    (x :: xs).find? p = if p x = true then some x else xs.find? p := by
  by_cases h : p x = true
  · rw [if_pos h, List.find?_cons_of_pos _ h]
  · rw [if_neg h, List.find?_cons_of_neg _ h]

theorem find_active_min (R : ByteQueue → ByteQueue → Prop) (hrefl : ∀ a, R a a) :
    ∀ (l : List ByteQueue) (q : ByteQueue), l.Pairwise R →
      l.find? (fun x => x.bIsActive) = some q →
      q.bIsActive = true ∧ ∀ r ∈ l, r.bIsActive = true → R q r
  | [], q, _, hf => Option.noConfusion hf
  | x :: xs, q, hp, hf => by
    obtain ⟨hx, hxs⟩ := List.pairwise_cons.mp hp
    rw [find?_cons_eval] at hf
    by_cases hxa : x.bIsActive = true
    · rw [if_pos hxa] at hf
      injection hf with hf2
      subst hf2
      refine ⟨hxa, ?_⟩
      intro r hr _
      rcases List.mem_cons.mp hr with rfl | hr'
      · exact hrefl _
      · exact hx r hr'
    · rw [if_neg hxa] at hf
      obtain ⟨hq, hmin⟩ := find_active_min R hrefl xs q hxs hf
      refine ⟨hq, ?_⟩
      intro r hr hra
      rcases List.mem_cons.mp hr with rfl | hr'
      · exact absurd hra hxa
      · exact hmin r hr' hra

/-- Claim C6 amendment (corrected).  `get_first_queue` and `get_last_queue`
do order the active slots by current address: the former returns an active
slot that no other active slot precedes in the sort order (lowest address),
the latter one that precedes no other (highest address).  `get_next_queue`,
by contrast, walks the table in storage order (see the counterexample). -/
theorem c6_first_last_address_order :
    ∀ (qs : List ByteQueue) (q : ByteQueue),
      (get_first_queue qs = some q →
        q.bIsActive = true ∧ ∀ r ∈ qs, r.bIsActive = true → queueLt r q = false) ∧
      (get_last_queue qs = some q →
        q.bIsActive = true ∧ ∀ r ∈ qs, r.bIsActive = true → queueLt q r = false) := by
  intro qs q
  constructor
  · intro hf
    obtain ⟨hq, hmin⟩ := find_active_min (fun a b => queueLt b a = false)
      (fun a => queueLt_irrefl a) (sortQueues qs) q (sortQueues_pairwise qs) hf
    refine ⟨hq, ?_⟩
    intro r hr hra
    exact hmin r ((sortQueues_perm qs).mem_iff.mpr hr) hra
  · intro hf
    have hrev : (sortQueues qs).reverse.Pairwise (fun a b => queueLt a b = false) :=
      List.pairwise_reverse.mpr (sortQueues_pairwise qs)
    obtain ⟨hq, hmax⟩ := find_active_min (fun a b => queueLt a b = false)
      (fun a => queueLt_irrefl a) (sortQueues qs).reverse q hrev hf
    refine ⟨hq, ?_⟩
    intro r hr hra
    refine hmax r ?_ hra
    rw [List.mem_reverse]
    exact (sortQueues_perm qs).mem_iff.mpr hr

/-- Witness for the C6 amendment: in `stC6` the first active queue by address
is the slot at offset 0, and the queue at offset 32 is not below it in the
comparator order. -/
theorem c6_first_last_address_order_witness :
    queueLt (⟨some 32, 32, 0, true⟩ : ByteQueue) (⟨some 0, 32, 0, true⟩ : ByteQueue) = false :=
  ((c6_first_last_address_order stC6.queues ⟨some 0, 32, 0, true⟩).1 rfl).2
    ⟨some 32, 32, 0, true⟩ (by decide) rfl

/-! ## The C9 two-slot family -/

theorem sortQueues_replicate :
    ∀ n : Nat, sortQueues (List.replicate n (default : ByteQueue)) = List.replicate n default
  | 0 => rfl
  | n + 1 => by
    show insertSorted default (sortQueues (List.replicate n default)) = _
    rw [sortQueues_replicate n]
    cases n with
    | zero => rfl
    | succ m =>
      show insertSorted default (default :: List.replicate m default) = _
      unfold insertSorted
      rw [if_neg (fun h => by rw [queueLt_irrefl default] at h; exact Bool.noConfusion h)]
      rfl

theorem insertSorted_active_defaults (B : ByteQueue) (hB : B.bIsActive = true) :
    ∀ n : Nat, insertSorted B (List.replicate n default) = B :: List.replicate n default
  | 0 => rfl
  | n + 1 => by
    show insertSorted B (default :: List.replicate n default) = _
    unfold insertSorted
    have hdB : queueLt default B = false := by
      unfold queueLt
      rw [if_pos (by rw [hB]; exact fun h => Bool.noConfusion h)]
      rfl
    rw [if_neg (fun h => by rw [hdB] at h; exact Bool.noConfusion h)]
    rfl

theorem organize_walk_defaults (st : PoolState) (prev : ByteQueue) (org : Bool) :
    ∀ n : Nat, organize_walk st prev org (List.replicate n default) = (st, org)
  | 0 => rfl
  | n + 1 => by
    show organize_walk st prev org (default :: List.replicate n default) = _
    unfold organize_walk
    rw [if_neg (fun h => Bool.noConfusion h)]
    exact organize_walk_defaults st prev org n

theorem organize_walk_cons (st : PoolState) (prev : ByteQueue) (org : Bool)
    (next : ByteQueue) (rest : List ByteQueue) :
    organize_walk st prev org (next :: rest) =
      if next.bIsActive = true then
        if next.memoryBlockPtr ≠ some (prev.memoryBlockPtr.getD 0 + prev.allocatedSize) then
          organize_walk
            ⟨replace_first next
                ⟨some (prev.memoryBlockPtr.getD 0 + prev.allocatedSize),
                  next.allocatedSize, next.size, next.bIsActive⟩ st.queues,
              relocate_bytes st.data (next.memoryBlockPtr.getD 0)
                (prev.memoryBlockPtr.getD 0 + prev.allocatedSize) next.allocatedSize false⟩
            ⟨some (prev.memoryBlockPtr.getD 0 + prev.allocatedSize),
              next.allocatedSize, next.size, next.bIsActive⟩ true rest
        else organize_walk st next org rest
      else organize_walk st prev org rest := rfl

set_option maxRecDepth 8000 in
/-- Claim C9 amendment (corrected).  When compaction relocates a slot other
than the first one, the vacated source range is left unchanged, not zeroed:
in the two-slot family the second slot (at `p ≥ 64`) moves down to offset 32,
and every byte of its old range `[p, p + 32)` keeps its previous value. -/
theorem c9_later_slot_source_unchanged :
    ∀ (p s0 s1 : Nat) (dat : Nat → Nat) (j : Nat),
      64 ≤ p → p ≤ j → j < p + DEFAULT_ALLOC_SIZE →
      ((try_organize_memory (twoSlotState p s0 s1 dat)).1).data j = dat j := by
  intro p s0 s1 dat j hp hpj hjp
  simp only [DEFAULT_ALLOC_SIZE] at hjp
  have hBA : queueLt (⟨some p, DEFAULT_ALLOC_SIZE, s1, true⟩ : ByteQueue)
      (⟨some 0, DEFAULT_ALLOC_SIZE, s0, true⟩ : ByteQueue) = false := by
    unfold queueLt
    rw [if_neg (fun h => h rfl)]
    simp [ptrLt]
  have hsort : sortQueues (twoSlotState p s0 s1 dat).queues =
      (⟨some 0, DEFAULT_ALLOC_SIZE, s0, true⟩ : ByteQueue) ::
      (⟨some p, DEFAULT_ALLOC_SIZE, s1, true⟩ : ByteQueue) :: List.replicate 62 default := by
    show insertSorted (⟨some 0, DEFAULT_ALLOC_SIZE, s0, true⟩ : ByteQueue)
      (sortQueues ((⟨some p, DEFAULT_ALLOC_SIZE, s1, true⟩ : ByteQueue) ::
        List.replicate 62 default)) = _
    rw [show sortQueues ((⟨some p, DEFAULT_ALLOC_SIZE, s1, true⟩ : ByteQueue) ::
        List.replicate 62 default) =
        insertSorted (⟨some p, DEFAULT_ALLOC_SIZE, s1, true⟩ : ByteQueue)
          (sortQueues (List.replicate 62 default)) from rfl,
      sortQueues_replicate 62, insertSorted_active_defaults _ rfl 62]
    unfold insertSorted
    rw [if_neg (fun h => by rw [hBA] at h; exact Bool.noConfusion h)]
  simp only [try_organize_memory, hsort]
  rw [if_neg (fun h => Bool.noConfusion h)]
  rw [if_neg (fun h => h rfl)]
  rw [organize_walk_cons]
  rw [if_pos (show (⟨some p, DEFAULT_ALLOC_SIZE, s1, true⟩ : ByteQueue).bIsActive = true from
    rfl)]
  rw [if_pos (show (⟨some p, DEFAULT_ALLOC_SIZE, s1, true⟩ : ByteQueue).memoryBlockPtr ≠
      some ((⟨some 0, DEFAULT_ALLOC_SIZE, s0, true⟩ : ByteQueue).memoryBlockPtr.getD 0 +
        (⟨some 0, DEFAULT_ALLOC_SIZE, s0, true⟩ : ByteQueue).allocatedSize) from by
    intro h
    injection h with h2
    simp only [Option.getD, DEFAULT_ALLOC_SIZE] at h2
    omega)]
  rw [organize_walk_defaults]
  show relocate_bytes dat p 32 32 false j = dat j
  simp only [relocate_bytes]
  rw [if_neg (show ¬(32 = p) from by omega)]
  rw [if_neg (show ¬(false = true) from fun h => Bool.noConfusion h)]
  show (if 32 ≤ j ∧ j < 32 + 32 then dat (p + (j - 32)) else dat j) = dat j
  rw [if_neg (show ¬(32 ≤ j ∧ j < 32 + 32) from by omega)]

/-- Witness for the C9 amendment at `p = 100` with constant byte 7: after the
compaction the byte at 100 (inside the vacated range `[100, 132)`) is still
7, not zero. -/
theorem c9_later_slot_source_unchanged_witness :
    ((try_organize_memory (twoSlotState 100 0 32 (fun _ => 7))).1).data 100 = 7 :=
  c9_later_slot_source_unchanged 100 0 32 (fun _ => 7) 100 (by decide) (by decide) (by decide)

theorem packedFrom_cons (prev next : ByteQueue) (rest : List ByteQueue) :
    packedFrom prev (next :: rest) =
      if next.bIsActive = true then
        if next.memoryBlockPtr = some (prev.memoryBlockPtr.getD 0 + prev.allocatedSize) then
          packedFrom next rest
        else false
      else packedFrom prev rest := rfl

theorem organize_walk_true :
    ∀ (l : List ByteQueue) (st : PoolState) (prev : ByteQueue),
      (organize_walk st prev true l).2 = true
  | [], _, _ => rfl
  | next :: rest, st, prev => by
    rw [organize_walk_cons]
    by_cases h1 : next.bIsActive = true
    · rw [if_pos h1]
      by_cases h2 : next.memoryBlockPtr ≠
          some (prev.memoryBlockPtr.getD 0 + prev.allocatedSize)
      · rw [if_pos h2]
        exact organize_walk_true rest _ _
      · rw [if_neg h2]
        exact organize_walk_true rest st next
    · rw [if_neg h1]
      exact organize_walk_true rest st prev

theorem organize_walk_false_iff :
    ∀ (l : List ByteQueue) (st : PoolState) (prev : ByteQueue),
      ((organize_walk st prev false l).2 = false ↔ packedFrom prev l = true)
  | [], _, _ => ⟨fun _ => rfl, fun _ => rfl⟩
  | next :: rest, st, prev => by
    rw [organize_walk_cons, packedFrom_cons]
    by_cases h1 : next.bIsActive = true
    · rw [if_pos h1, if_pos h1]
      by_cases h2 : next.memoryBlockPtr =
          some (prev.memoryBlockPtr.getD 0 + prev.allocatedSize)
      · rw [if_neg (show ¬(next.memoryBlockPtr ≠
            some (prev.memoryBlockPtr.getD 0 + prev.allocatedSize)) from fun hn => hn h2),
          if_pos h2]
        exact organize_walk_false_iff rest st next
      · rw [if_pos h2, if_neg h2]
        rw [organize_walk_true]
        exact ⟨fun h => Bool.noConfusion h, fun h => Bool.noConfusion h⟩
    · rw [if_neg h1, if_neg h1]
      exact organize_walk_false_iff rest st prev

/-- Claim C8 amendment (corrected): `try_organize_memory` reports `false`
exactly when the sorted active chain is already packed (first active entry at
the arena base, every further active entry adjacent to the previous one); it
reports `true` exactly when it repositioned at least one active slot, which
can move zero bytes when a slot has zero capacity, and a second consecutive
call can therefore report `true` again. -/
theorem c8_compact_false_iff_packed (st : PoolState) :
    (try_organize_memory st).2 = false ↔ packedB st = true := by
  cases hs : sortQueues st.queues with
  | nil =>
    simp only [try_organize_memory, packedB, hs]
  | cons t0 rest =>
    simp only [try_organize_memory, packedB, hs]
    by_cases h1 : t0.bIsActive = false
    · rw [if_pos h1, if_pos h1]
      exact ⟨fun _ => rfl, fun _ => rfl⟩
    · rw [if_neg h1, if_neg h1]
      by_cases h2 : t0.memoryBlockPtr ≠ some 0
      · rw [if_pos h2, if_pos h2]
        rw [organize_walk_true]
        exact ⟨fun h => Bool.noConfusion h, fun h => Bool.noConfusion h⟩
      · rw [if_neg h2, if_neg h2]
        exact organize_walk_false_iff rest st t0

end MemPool
